import Mathlib

/-!
A verification development for the `envParser` Go package
(`parser.go`, `errors.go`): a tag-driven decoder of string-to-string
environments into record values.

Modelling conventions:
* Go maps are modelled as association lists with unique keys
  (`AList`); `insertA` overwrites in place, `eraseA` deletes, `lookupA`
  looks up, so the observable map behaviour (lookup, size) coincides
  with Go's.
* Go strings are Lean `String`s, but every string operation the code
  uses (`strings.Split`, `strings.SplitN(_,_,2)`, `strings.ReplaceAll`,
  `strings.ToLower`, trimming) is implemented here over `String.data`
  by plain structural recursion, mirroring the Go semantics, so that
  every definition evaluates inside the kernel.
* `errors.Join` is modelled by a `List Err` (empty list = nil error);
  the join order matches the code's accumulation order.
* Machine integers: `strconv.Atoi` parses into a 64-bit signed range,
  `strconv.ParseUint(_,10,64)` into a 64-bit unsigned range;
  `reflect.Value.SetInt`/`SetUint` store into a field of width `w`
  by two's-complement truncation, modelled as `Int.bmod _ (2 ^ w)`
  resp. `_ % 2 ^ w`.
* The struct shapes covered are the ones the decoder's `set` handles
  and the specification's claims exercise: strings, booleans, signed
  and unsigned integers of each width, pointers, slices, string-keyed
  maps, and (recursively) embedded structs.  `float32/float64` and
  `time.Duration` fields are outside the modelled fragment (no claim
  touches them).
* The process-wide default separator (`var Separator`) is passed as an
  explicit parameter to each function at each point the Go code reads
  the global, so that the read points are distinguishable.
-/

set_option maxHeartbeats 1000000

namespace EnvP

/-! ### Association lists: the model of a Go `map[string]V` -/

abbrev AList (α : Type) := List (String × α)

def lookupA {α : Type} : AList α → String → Option α
  | [], _ => none
  | (k, v) :: rest, key => if k = key then some v else lookupA rest key

/-- Go map assignment `m[key] = val`: overwrite in place or append. -/
def insertA {α : Type} : AList α → String → α → AList α
  | [], key, val => [(key, val)]
  | (k, v) :: rest, key, val =>
    if k = key then (k, val) :: rest else (k, v) :: insertA rest key val

/-- Go `delete(m, key)`. -/
def eraseA {α : Type} : AList α → String → AList α
  | [], _ => []
  | (k, v) :: rest, key => if k = key then eraseA rest key else (k, v) :: eraseA rest key

def keysA {α : Type} (m : AList α) : List String := m.map Prod.fst

/-! ### Go string primitives, implemented over `String.data` -/

def strOfChars (cs : List Char) : String := String.mk cs

/-- One splitting step of `strings.Split`: `cur` is the reversed chunk
being accumulated, `fuel` bounds the recursion (callers pass the
input length, which suffices because each step consumes at least one
character when the separator is nonempty). -/
def splitCharsAux (sep : List Char) : Nat → List Char → List Char → List (List Char)
  | _, cur, [] => [cur.reverse]
  | 0, cur, rest => [cur.reverse ++ rest]
  | fuel + 1, cur, c :: rest =>
    if sep.isPrefixOf (c :: rest) then
      cur.reverse :: splitCharsAux sep fuel [] (List.drop sep.length (c :: rest))
    else
      splitCharsAux sep fuel (c :: cur) rest

def splitChars (sep s : List Char) : List (List Char) :=
  splitCharsAux sep s.length [] s

/-- `strings.Split s sep`.  For an empty separator Go splits into the
individual characters. -/
def goSplit (s sep : String) : List String :=
  if sep.data = [] then s.data.map String.singleton
  else (splitChars sep.data s.data).map strOfChars

/-- `strings.SplitN s sep 2`: at most two pieces, the second piece is
the remainder verbatim (rejoined with the separator). -/
def goSplitN2 (s sep : String) : List String :=
  match (splitChars sep.data s.data).map strOfChars with
  | [] => [s]
  | [x] => [x]
  | x :: rest => [x, strOfChars (List.intercalate sep.data (rest.map String.data))]

/-- `strings.ReplaceAll s old new` (for nonempty `old`): split on `old`
and rejoin with `new`. -/
def goReplaceAll (s old new : String) : String :=
  if old.data = [] then s
  else strOfChars (List.intercalate new.data (splitChars old.data s.data))

def goToLower (s : String) : String := strOfChars (s.data.map Char.toLower)

/-! ### Scalar parsing: `strconv` -/

/-- Base-10 digit run; `none` on empty input or any non-digit. -/
def parseDigits (cs : List Char) : Option Nat :=
  match cs with
  | [] => none
  | _ =>
    cs.foldl
      (fun acc c =>
        match acc with
        | none => none
        | some n => if c.isDigit then some (n * 10 + (c.toNat - '0'.toNat)) else none)
      (some 0)

def int64Max : Int := 2 ^ 63 - 1
def int64Min : Int := -(2 ^ 63)
def uint64Max : Nat := 2 ^ 64 - 1

/-- `strconv.Atoi`: optional sign, base-10 digits, 64-bit signed range. -/
def goAtoi (s : String) : Option Int :=
  match s.data with
  | [] => none
  | c :: rest =>
    let body : Bool × List Char :=
      if c = '-' then (true, rest) else if c = '+' then (false, rest) else (false, c :: rest)
    match parseDigits body.2 with
    | none => none
    | some n =>
      let v : Int := if body.1 then -(n : Int) else (n : Int)
      if int64Min ≤ v ∧ v ≤ int64Max then some v else none

/-- `strconv.ParseUint _ 10 64`: no sign, base-10 digits, 64-bit range. -/
def goParseUint64 (s : String) : Option Nat :=
  match parseDigits s.data with
  | none => none
  | some n => if n ≤ uint64Max then some n else none

/-- `strconv.ParseBool`: the exact twelve accepted literals. -/
def goParseBool (s : String) : Option Bool :=
  if s = "1" ∨ s = "t" ∨ s = "T" ∨ s = "TRUE" ∨ s = "true" ∨ s = "True" then some true
  else if s = "0" ∨ s = "f" ∨ s = "F" ∨ s = "FALSE" ∨ s = "false" ∨ s = "False" then
    some false
  else none

/-! ### Errors (`errors.go` plus the `fmt.Errorf` sites in `parser.go`) -/

inductive Err where
  /-- `ErrInvalidEnviron` -/
  | invalidEnviron
  /-- `ErrInvalidValue` -/
  | invalidValue
  /-- `ErrUnsupportedType` -/
  | unsupportedType
  /-- `fmt.Errorf("field %s is not exported", name)` -/
  | notExported (fieldName : String)
  /-- `fmt.Errorf("required field: %s not found", key)` -/
  | requiredNotFound (key : String)
  /-- a `strconv`/parse failure on the given value string -/
  | parseFailure (value : String)
  /-- `fmt.Errorf("invalid map entry: %s", pair)` -/
  | invalidMapEntry (pair : String)
  /-- an error returned by a registered validator -/
  | validationFailed (msg : String)
  deriving DecidableEq, Repr

/-! ### The data model: field types, field declarations, runtime values -/

mutual
/-- The declared shape of a field, as `set` dispatches on `reflect.Kind`.
`tInt 64` covers both `int` and `int64` (64-bit platform). -/
inductive Ty where
  | tStr
  | tBool
  | tInt (w : Nat)
  | tUint (w : Nat)
  | tPtr (t : Ty)
  | tSlice (t : Ty)
  | tMapTy (t : Ty)
  | tStructTy (fs : List FieldD)

/-- A struct field: Go field name, raw `env` tag (`""` = untagged),
exported flag (drives `CanSet` / `Addr().CanInterface()`), and type. -/
inductive FieldD where
  | mk (name : String) (tag : String) (exported : Bool) (ty : Ty)
end

def FieldD.name : FieldD → String
  | .mk n _ _ _ => n

def FieldD.tag : FieldD → String
  | .mk _ t _ _ => t

def FieldD.exported : FieldD → Bool
  | .mk _ _ e _ => e

def FieldD.ty : FieldD → Ty
  | .mk _ _ _ t => t

def Ty.isStruct : Ty → Bool
  | .tStructTy _ => true
  | _ => false

/-- Runtime values.  `vPtrNil`, `vSliceNil`, `vMapNil` are the zero
values of pointer, slice and map fields; `vMapOf []` is an initialized
empty map (distinct from a nil map, as in Go). -/
inductive Value where
  | vStr (s : String)
  | vBool (b : Bool)
  | vInt (w : Nat) (n : Int)
  | vUint (w : Nat) (n : Nat)
  | vPtrNil
  | vPtrSome (v : Value)
  | vSliceNil
  | vSliceOf (vs : List Value)
  | vMapNil
  | vMapOf (es : List (String × Value))
  | vStruct (vs : List Value)

instance : Inhabited Value := ⟨.vStr ""⟩

/-! ### `parseTag`: the tag metadata parser -/

/-- The descriptor produced from one raw `env` tag (Go `tagField`). -/
structure TagField where
  Key : String
  Default : String
  Required : Bool
  Separator : String
  deriving DecidableEq, Repr

/-- The private sentinel `escapedComma = "\x00"` used while splitting. -/
def sentinel : String := "\x00"

def unescapeCommas (s : String) : String := goReplaceAll s sentinel ","

/-- One iteration of `parseTag`'s modifier loop: split the token on its
first `=`, dispatch on the lower-cased name.  `required` checks no
arity; `default`/`separator` require exactly two parts. -/
def applyToken (tf : TagField) (tok : String) : TagField :=
  let keyData := goSplitN2 tok "="
  let nm := goToLower (keyData.headD "")
  if nm = "required" then { tf with Required := true }
  else if nm = "default" then
    if keyData.length = 2 then { tf with Default := unescapeCommas (keyData.getD 1 "") }
    else tf
  else if nm = "separator" then
    if keyData.length = 2 then { tf with Separator := unescapeCommas (keyData.getD 1 "") }
    else tf
  else tf

/-- `parseTag`.  `sepGlobal` is the value the global `Separator` has at
the moment the tag is parsed (the code reads the global here, at line
230, to initialize the descriptor). -/
def parseTag (sepGlobal : String) (tag : String) : TagField :=
  match goSplit (goReplaceAll tag "\\," sentinel) "," with
  | [] => { Key := "", Default := "", Required := false, Separator := sepGlobal }
  | k :: mods =>
    mods.foldl applyToken { Key := k, Default := "", Required := false, Separator := sepGlobal }

/-! ### `set`: type-directed coercion -/

/-- The separator actually used for a slice/map field: `set` re-reads
the global when the descriptor's separator is empty
(`if sliceSeparator == "" { sliceSeparator = Separator }`); `g` is the
global's value at that read. -/
def resolveSep (sep g : String) : String := if sep = "" then g else sep

/-- The element loop of the slice branch: coerce every part in order,
aborting on the first failure (the slice is assigned only if every
element coerces). -/
def mapValues (f : String → Except Err Value) : List String → Except Err (List Value)
  | [] => .ok []
  | p :: ps =>
    match f p with
    | .error e => .error e
    | .ok v =>
      match mapValues f ps with
      | .error e => .error e
      | .ok vs => .ok (v :: vs)

def pairKey (p : String) : String := (goSplitN2 p ":").headD ""
def pairRest (p : String) : String := (goSplitN2 p ":").getD 1 ""
def pairWF (p : String) : Bool := (goSplitN2 p ":").length == 2

/-- The pair loop of the map branch: split each pair token on its first
`:`; a token without `:` is an error for the whole field; otherwise the
value is coerced and written with Go map assignment (last write wins). -/
def mapEntriesA (f : String → Except Err Value) :
    List String → AList Value → Except Err (AList Value)
  | [], acc => .ok acc
  | p :: ps, acc =>
    if pairWF p then
      match f (pairRest p) with
      | .error e => .error e
      | .ok v => mapEntriesA f ps (insertA acc (pairKey p) v)
    else .error (.invalidMapEntry p)

/-- `set(t, f, value, sliceSeparator)`: returns the value assigned to
the field, or the error (in which case the field is not assigned).
`g` is the process-wide default separator as read inside `set`.
The map branch's string-key check is built into `tMapTy` (all modelled
maps are string-keyed). -/
def setVal (t : Ty) (value sep g : String) : Except Err Value :=
  match t with
  | .tPtr te =>
    match setVal te value sep g with
    | .error e => .error e
    | .ok v => .ok (.vPtrSome v)
  | .tStr => .ok (.vStr value)
  | .tBool =>
    match goParseBool value with
    | some b => .ok (.vBool b)
    | none => .error (.parseFailure value)
  | .tInt w =>
    match goAtoi value with
    | some v => .ok (.vInt w (Int.bmod v (2 ^ w)))
    | none => .error (.parseFailure value)
  | .tUint w =>
    match goParseUint64 value with
    | some v => .ok (.vUint w (v % 2 ^ w))
    | none => .error (.parseFailure value)
  | .tSlice te =>
    let ssep := resolveSep sep g
    let parts := goSplit value ssep
    match te with
    | .tStr => .ok (.vSliceOf (parts.map Value.vStr))
    | _ =>
      match mapValues (fun v => setVal te v ssep g) parts with
      | .error e => .error e
      | .ok vs => .ok (.vSliceOf vs)
  | .tMapTy te =>
    let ssep := resolveSep sep g
    if value = "" then .ok (.vMapOf [])
    else
      match mapEntriesA (fun v => setVal te v ssep g) (goSplit value ssep) [] with
      | .error e => .error e
      | .ok es => .ok (.vMapOf es)
  | .tStructTy _ => .error .unsupportedType
  termination_by structural t

/-! ### `unmarshal`: the recursive field walk -/

/-- The source mapping: a Go `map[string]string`. -/
abbrev EnvMap := AList String

/-- The tag-driven part of one loop iteration of `unmarshal` (lines
186–218): skip untagged fields, error on unexported tagged fields,
resolve the effective value (explicit entry / default / skip /
required-error), coerce, and on success delete the key.  `g` is the
process-wide default separator during this decode call.  Returns the
updated mapping, the (possibly updated) field value, and the errors
this field contributes. -/
def tagPart (g : String) (envs : EnvMap) (name tag : String) (exported : Bool)
    (ty : Ty) (v : Value) : EnvMap × Value × List Err :=
  if tag = "" then (envs, v, [])
  else if exported then
    let tf := parseTag g tag
    match lookupA envs tf.Key with
    | some envValue =>
      match setVal ty envValue tf.Separator g with
      | .error e => (envs, v, [e])
      | .ok v' => (eraseA envs tf.Key, v', [])
    | none =>
      if tf.Required && (tf.Default == "") then (envs, v, [.requiredNotFound tf.Key])
      else if tf.Default ≠ "" then
        match setVal ty tf.Default tf.Separator g with
        | .error e => (envs, v, [e])
        | .ok v' => (eraseA envs tf.Key, v', [])
      else (envs, v, [])
  else (envs, v, [.notExported name])

mutual
/-- The field loop of `unmarshal` (lines 172–218) over a struct's
declared fields and current field values: each field is processed by
`processField` on the mapping state left by its predecessors, the walk
never aborts, and the per-field error lists are joined in order.
Returns the final mapping, the final field values, and the joined
error list. -/
def unmarshalFields (g : String) : List FieldD → EnvMap → List Value →
    EnvMap × List Value × List Err
  | [], envs, vs => (envs, vs, [])
  | _ :: _, envs, [] => (envs, [], [])
  | f :: fs, envs, v :: vtail =>
    let step := processField g envs f v
    let rest := unmarshalFields g fs step.1 vtail
    (rest.1, step.2.1 :: rest.2.1, step.2.2 ++ rest.2.2)

/-- One loop iteration of `unmarshal` for field `f` with current value
`v`: an exported struct-typed field is recursed into first with the same
mapping (joining its errors and skipping the tag-driven part if any),
an unexported struct-typed field is skipped, and every other field runs
the tag-driven part `tagPart`. -/
def processField (g : String) (envs : EnvMap) : FieldD → Value →
    EnvMap × Value × List Err
  | .mk name tag ex (.tStructTy gs), .vStruct ws =>
    if ex then
      let inner := unmarshalFields g gs envs ws
      if inner.2.2 = [] then
        tagPart g inner.1 name tag ex (.tStructTy gs) (.vStruct inner.2.1)
      else (inner.1, .vStruct inner.2.1, inner.2.2)
    else (envs, .vStruct ws, [])
  | .mk name tag ex ty, v =>
    if ty.isStruct then (envs, v, [])
    else tagPart g envs name tag ex ty v
end

/-- `Unmarshal(envs, v)` (lines 146–156), for a valid pointer-to-struct
destination: run the field walk; if it produced any error return it;
otherwise, if a validator is registered (the value `getValidator()`
returns at that moment), call it once on the populated record and
return its result.  The final `Nat` instruments how many times the
validator collaborator was invoked. -/
def Unmarshal (validator : Option (List Value → Option Err)) (g : String)
    (envs : EnvMap) (fs : List FieldD) (vs : List Value) :
    EnvMap × List Value × List Err × Nat :=
  let r := unmarshalFields g fs envs vs
  match r.2.2 with
  | [] =>
    match validator with
    | none => (r.1, r.2.1, [], 0)
    | some f =>
      match f r.2.1 with
      | none => (r.1, r.2.1, [], 1)
      | some e => (r.1, r.2.1, [e], 1)
  | e :: es => (r.1, r.2.1, e :: es, 0)

/-! ### `EnvironToMap` and the file-based entry points -/

def lineWF (l : String) : Bool := (goSplitN2 l "=").length == 2
def lineKey (l : String) : String := (goSplitN2 l "=").headD ""
def lineVal (l : String) : String := (goSplitN2 l "=").getD 1 ""

/-- The loop of `EnvironToMap`: split each entry on its first `=`;
any entry without `=` aborts the whole conversion with
`ErrInvalidEnviron` (no mapping is returned). -/
def environToMapAux : List String → EnvMap → Except Err EnvMap
  | [], acc => .ok acc
  | s :: rest, acc =>
    if lineWF s then environToMapAux rest (insertA acc (lineKey s) (lineVal s))
    else .error .invalidEnviron

def EnvironToMap (env : List String) : Except Err EnvMap :=
  environToMapAux env []

/-- Go `unicode.IsSpace` restricted to Latin-1, as `strings.TrimSpace`
uses it on these inputs. -/
def goIsSpace (c : Char) : Bool :=
  c = ' ' ∨ c = '\t' ∨ c = '\n' ∨ c = '\x0b' ∨ c = '\x0c' ∨ c = '\r' ∨
    c = '\u0085' ∨ c = ' '

def goTrimSpace (s : String) : String :=
  strOfChars (((s.data.dropWhile goIsSpace).reverse.dropWhile goIsSpace).reverse)

/-- `strings.TrimRight(line, "\r")`. -/
def trimRightCR (s : String) : String :=
  strOfChars ((s.data.reverse.dropWhile (· = '\r')).reverse)

/-- `parseEnvFile`: split into lines, trim, drop blank lines and
`#`-comments. -/
def parseEnvFile (content : String) : List String :=
  ((goSplit content "\n").map (fun l => goTrimSpace (trimRightCR l))).filter
    (fun l => ¬(l = "" ∨ ['#'].isPrefixOf l.data))

/-- `UnmarshalFromFile`: the raw process environment with the file's
entries appended after it (so file values win during mapping
construction), then `Unmarshal`. -/
def UnmarshalFromFile (environ : List String) (contents : String)
    (validator : Option (List Value → Option Err)) (g : String)
    (fs : List FieldD) (vs : List Value) : EnvMap × List Value × List Err × Nat :=
  match EnvironToMap (environ ++ parseEnvFile contents) with
  | .error e => ([], vs, [e], 0)
  | .ok envs => Unmarshal validator g envs fs vs

set_option linter.unusedVariables false in
/-- `UnmarshalFromFileOnly`: only the file's entries are converted; the
process environment (`environ`) is accepted as an input of the model to
make its non-use provable, mirroring that the function never calls
`os.Environ()`. -/
def UnmarshalFromFileOnly (environ : List String) (contents : String)
    (validator : Option (List Value → Option Err)) (g : String)
    (fs : List FieldD) (vs : List Value) : EnvMap × List Value × List Err × Nat :=
  match EnvironToMap (parseEnvFile contents) with
  | .error e => ([], vs, [e], 0)
  | .ok envs => Unmarshal validator g envs fs vs

/-! ### Spec-side helper definitions used by the theorems -/

/-- The value an entry list associates to `k` by its *last* well-formed
occurrence of key `k` (Go map writes: last write wins). -/
def lastVal (env : List String) (k : String) : Option String :=
  (env.reverse.find? (fun l => lineKey l == k)).map lineVal

def envInsLine (m : EnvMap) (l : String) : EnvMap :=
  insertA m (lineKey l) (lineVal l)

/-- The (lower-cased) name of a tag modifier token: the part before its
first `=`. -/
def modName (tok : String) : String := goToLower ((goSplitN2 tok "=").headD "")

/-- The argument of a tag modifier token: the part after its first `=`. -/
def modArg (tok : String) : String := (goSplitN2 tok "=").getD 1 ""

/-- True on a token only when it is a `separator=X` modifier with a
nonempty (unescaped) value `X`. -/
def setsNonEmptySep (tok : String) : Bool :=
  (modName tok == "separator") && ((goSplitN2 tok "=").length == 2) &&
    (unescapeCommas (modArg tok) != "")

/-- The modifier tokens of a raw tag (everything after the key). -/
def tagMods (tag : String) : List String :=
  (goSplit (goReplaceAll tag "\\," sentinel) ",").tail

/-- The payload of a successful coercion (callers only use it when the
coercion is known to succeed). -/
def okValD (e : Except Err Value) : Value :=
  match e with
  | .ok v => v
  | .error _ => .vStr ""

/-- The value the map branch stores for pair token `p`. -/
def entryValOf (te : Ty) (ssep g : String) (p : String) : Value :=
  okValD (setVal te (pairRest p) ssep g)

/-- The entries the map branch accumulates over the pair tokens, in
token order, with Go map assignment (duplicate keys overwrite). -/
def entriesOfPairs (te : Ty) (ssep g : String) (pairs : List String) : AList Value :=
  pairs.foldl (fun es p => insertA es (pairKey p) (entryValOf te ssep g p)) []

/-- Packaging of the slice branch's element-loop result. -/
def sliceBuild (r : Except Err (List Value)) : Except Err Value :=
  match r with
  | .error e => .error e
  | .ok vs => .ok (.vSliceOf vs)

/-! ### Association-list lemmas -/

@[simp] theorem keysA_nil {α : Type} : keysA ([] : AList α) = [] := rfl

@[simp] theorem keysA_cons {α : Type} (p : String × α) (m : AList α) :
    keysA (p :: m) = p.1 :: keysA m := rfl

theorem lookupA_insertA {α : Type} (m : AList α) (k : String) (v : α) (q : String) :
    lookupA (insertA m k v) q = if k = q then some v else lookupA m q := by
  induction m with
  | nil => simp [insertA, lookupA]
  | cons p rest ih =>
    obtain ⟨k0, v0⟩ := p
    by_cases h0 : k0 = k
    · subst h0
      simp only [insertA, eq_self_iff_true, if_true, lookupA]
      split_ifs <;> simp_all
    · simp only [insertA, if_neg h0, lookupA, ih]
      split_ifs <;> simp_all

theorem mem_keysA_insertA {α : Type} (m : AList α) (k : String) (v : α) (q : String) :
    q ∈ keysA (insertA m k v) ↔ q ∈ keysA m ∨ q = k := by
  induction m with
  | nil => simp [insertA]
  | cons p rest ih =>
    obtain ⟨k0, v0⟩ := p
    by_cases h0 : k0 = k
    · subst h0
      simp only [insertA, eq_self_iff_true, if_true, keysA_cons, List.mem_cons]
      tauto
    · simp only [insertA, if_neg h0, keysA_cons, List.mem_cons, ih]
      tauto

theorem nodup_keysA_insertA {α : Type} (m : AList α) (k : String) (v : α)
    (h : (keysA m).Nodup) : (keysA (insertA m k v)).Nodup := by
  induction m with
  | nil => simp [insertA]
  | cons p rest ih =>
    obtain ⟨k0, v0⟩ := p
    simp only [keysA_cons, List.nodup_cons] at h
    by_cases h0 : k0 = k
    · subst h0
      simp only [insertA, eq_self_iff_true, if_true, keysA_cons, List.nodup_cons]
      exact h
    · simp only [insertA, if_neg h0, keysA_cons, List.nodup_cons]
      refine ⟨fun hmem => ?_, ih h.2⟩
      rcases (mem_keysA_insertA rest k v k0).1 hmem with hm | he
      · exact h.1 hm
      · exact h0 he

theorem length_insertA {α : Type} (m : AList α) (k : String) (v : α) :
    (insertA m k v).length = if k ∈ keysA m then m.length else m.length + 1 := by
  induction m with
  | nil => simp [insertA]
  | cons p rest ih =>
    obtain ⟨k0, v0⟩ := p
    by_cases h0 : k0 = k
    · subst h0
      simp [insertA]
    · have hk : ¬k = k0 := fun h => h0 h.symm
      simp only [insertA, if_neg h0, List.length_cons, keysA_cons, List.mem_cons, ih]
      split_ifs <;> simp_all

theorem lookupA_none_iff {α : Type} (m : AList α) (k : String) :
    lookupA m k = none ↔ k ∉ keysA m := by
  induction m with
  | nil => simp [lookupA]
  | cons p rest ih =>
    obtain ⟨k0, v0⟩ := p
    have hk : k = k0 ↔ k0 = k := ⟨fun h => h.symm, fun h => h.symm⟩
    by_cases h0 : k0 = k <;> simp [lookupA, h0, ih, hk]

theorem eraseA_of_not_mem {α : Type} (m : AList α) (k : String)
    (h : lookupA m k = none) : eraseA m k = m := by
  induction m with
  | nil => simp [eraseA]
  | cons p rest ih =>
    obtain ⟨k0, v0⟩ := p
    by_cases h0 : k0 = k
    · simp [lookupA, h0] at h
    · simp only [lookupA, if_neg h0] at h
      simp [eraseA, h0, ih h]

/-! ### `EnvironToMap` lemmas -/

theorem environToMapAux_error (env : List String) (l : String) (hl : l ∈ env)
    (hw : lineWF l = false) (acc : EnvMap) :
    environToMapAux env acc = .error .invalidEnviron := by
  induction env generalizing acc with
  | nil => cases hl
  | cons s rest ih =>
    by_cases hs : lineWF s
    · rcases List.mem_cons.1 hl with rfl | hmem
      · rw [hs] at hw; cases hw
      · simp [environToMapAux, hs, ih hmem]
    · simp [environToMapAux, Bool.of_not_eq_true hs]

theorem environToMapAux_ok (env : List String) (acc : EnvMap)
    (h : ∀ l ∈ env, lineWF l = true) :
    environToMapAux env acc = .ok (env.foldl envInsLine acc) := by
  induction env generalizing acc with
  | nil => simp [environToMapAux]
  | cons s rest ih =>
    have hs := h s (List.mem_cons_self s rest)
    simp [environToMapAux, hs, envInsLine, ih _ (fun l hl => h l (List.mem_cons_of_mem s hl))]

theorem lookupA_foldl_envIns (env : List String) (acc : EnvMap) (k : String) :
    lookupA (env.foldl envInsLine acc) k = (lastVal env k).or (lookupA acc k) := by
  induction env generalizing acc with
  | nil => simp [lastVal]
  | cons l rest ih =>
    simp only [List.foldl_cons, ih, lastVal, List.reverse_cons, List.find?_append]
    rcases hfind : (List.find? (fun l => lineKey l == k) rest.reverse) with _ | w
    · simp only [Option.map_none', Option.none_or]
      by_cases hc : lineKey l = k
      · simp [List.find?, hc, envInsLine, lookupA_insertA]
      · have hcb : (lineKey l == k) = false := by simpa using hc
        simp [List.find?, hcb, envInsLine, lookupA_insertA, hc]
    · simp [Option.or]

theorem mem_keysA_foldl_envIns (env : List String) (acc : EnvMap) (k : String) :
    k ∈ keysA (env.foldl envInsLine acc) ↔ k ∈ keysA acc ∨ k ∈ env.map lineKey := by
  induction env generalizing acc with
  | nil => simp
  | cons l rest ih =>
    simp only [List.foldl_cons, ih, envInsLine, mem_keysA_insertA, List.map_cons,
      List.mem_cons]
    tauto

theorem nodup_keysA_foldl_envIns (env : List String) (acc : EnvMap)
    (h : (keysA acc).Nodup) : (keysA (env.foldl envInsLine acc)).Nodup := by
  induction env generalizing acc with
  | nil => exact h
  | cons l rest ih =>
    exact ih _ (nodup_keysA_insertA _ _ _ h)

theorem length_keysA {α : Type} (m : AList α) : (keysA m).length = m.length :=
  List.length_map m Prod.fst

/-! ### Claim C7: raw-entry conversion -/

/-- C7: for every list of raw entry lines, a line without `=` anywhere
in the batch (its `SplitN _ "=" 2` does not give two parts) makes the
whole conversion fail with the malformed-environment error and no
mapping is produced; otherwise the conversion succeeds with a mapping
whose keys are duplicate-free, whose size is the number of distinct
keys of the input, and whose value at each key is the one of the key's
last occurrence (everything after the first `=` verbatim). -/
theorem environ_to_map_spec (env : List String) :
    (∀ l ∈ env, lineWF l = false → EnvironToMap env = .error .invalidEnviron) ∧
    ((∀ l ∈ env, lineWF l = true) →
      ∃ m, EnvironToMap env = .ok m ∧ (keysA m).Nodup ∧
        m.length = (env.map lineKey).dedup.length ∧
        ∀ k, lookupA m k = lastVal env k) := by
  constructor
  · intro l hl hw
    exact environToMapAux_error env l hl hw []
  · intro h
    refine ⟨env.foldl envInsLine [], environToMapAux_ok env [] h, ?_, ?_, ?_⟩
    · exact nodup_keysA_foldl_envIns env [] (by simp)
    · have hnd := nodup_keysA_foldl_envIns env [] (by simp)
      have hmem : ∀ k, k ∈ keysA (env.foldl envInsLine []) ↔ k ∈ (env.map lineKey).dedup := by
        intro k
        rw [mem_keysA_foldl_envIns, List.mem_dedup]
        simp
      have hperm : List.Perm (keysA (env.foldl envInsLine [])) (env.map lineKey).dedup :=
        (List.perm_ext_iff_of_nodup hnd (List.nodup_dedup _)).2 hmem
      calc (env.foldl envInsLine []).length
          = (keysA (env.foldl envInsLine [])).length := (length_keysA _).symm
        _ = (env.map lineKey).dedup.length := hperm.length_eq
    · intro k
      have h0 := lookupA_foldl_envIns env [] k
      simpa [lookupA, Option.or_none] using h0

/-- Witness for C7 at concrete inputs: one malformed batch, and one
batch with a duplicate key where the last occurrence wins and the size
is the number of distinct keys. -/
theorem environ_to_map_spec_witness :
    EnvironToMap ["NOEQUALS"] = .error .invalidEnviron ∧
    ∃ m, EnvironToMap ["A=1", "B=2", "A=3"] = .ok m ∧ (keysA m).Nodup ∧
      m.length = ((["A=1", "B=2", "A=3"].map lineKey).dedup.length) ∧
      ∀ k, lookupA m k = lastVal ["A=1", "B=2", "A=3"] k :=
  ⟨(environ_to_map_spec ["NOEQUALS"]).1 "NOEQUALS" (by simp) (by decide),
   (environ_to_map_spec ["A=1", "B=2", "A=3"]).2 (by decide)⟩

/-! ### Claim C8: file-only decode ignores the environment -/

/-- C8: for every file contents and every two process environments,
`UnmarshalFromFileOnly` produces the same populated record and the same
error: its result never depends on the process environment, even when a
same-named key exists there. -/
theorem file_only_ignores_environment (env1 env2 : List String) (contents : String)
    (validator : Option (List Value → Option Err)) (g : String)
    (fs : List FieldD) (vs : List Value) :
    UnmarshalFromFileOnly env1 contents validator g fs vs =
      UnmarshalFromFileOnly env2 contents validator g fs vs := rfl

/-! ### Claim C10: narrow integer fields truncate, not error -/

/-- C10: for a signed integer field of width 8/16/32, a decimal string
that `Atoi` parses (64-bit precision) to a value outside the field's
range is accepted without error and stored two's-complement-truncated
(`Int.bmod _ (2 ^ w)`, which is congruent mod `2 ^ w`, lies in the
declared range, and differs from the parsed value); likewise an
unsigned field of width 8/16/32 stores `_ % 2 ^ w`. -/
theorem narrow_int_truncates (w : Nat) (hw : w = 8 ∨ w = 16 ∨ w = 32)
    (s : String) (v : Int) (n : Nat) (sep g : String) :
    (goAtoi s = some v → (v < -(2 ^ (w - 1)) ∨ 2 ^ (w - 1) ≤ v) →
      setVal (.tInt w) s sep g = .ok (.vInt w (Int.bmod v (2 ^ w))) ∧
        (Int.bmod v (2 ^ w)) % (2 ^ w) = v % (2 ^ w) ∧
        -(2 ^ (w - 1)) ≤ Int.bmod v (2 ^ w) ∧ Int.bmod v (2 ^ w) < 2 ^ (w - 1) ∧
        Int.bmod v (2 ^ w) ≠ v) ∧
    (goParseUint64 s = some n → 2 ^ w ≤ n →
      setVal (.tUint w) s sep g = .ok (.vUint w (n % 2 ^ w)) ∧
        n % 2 ^ w ≠ n) := by
  constructor
  · intro hparse hout
    refine ⟨by simp [setVal, hparse], by simpa using Int.bmod_emod (x := v) (m := 2 ^ w), ?_⟩
    have hbd : -(2 ^ (w - 1) : Int) ≤ Int.bmod v (2 ^ w) ∧
        Int.bmod v (2 ^ w) < 2 ^ (w - 1) := by
      have h1 : (0 : Int) ≤ v % (2 ^ w : Nat) :=
        Int.emod_nonneg v (by rcases hw with rfl | rfl | rfl <;> decide)
      have h2 : v % (2 ^ w : Nat) < (2 ^ w : Nat) :=
        Int.emod_lt_of_pos v (by rcases hw with rfl | rfl | rfl <;> decide)
      rw [Int.bmod_def]
      rcases hw with rfl | rfl | rfl <;>
        · simp only [Nat.cast_pow, Nat.cast_ofNat] at h1 h2 ⊢
          norm_num at h1 h2 ⊢
          split_ifs <;> omega
    refine ⟨hbd.1, hbd.2, fun he => ?_⟩
    rcases hout with hlt | hge
    · have := hbd.1
      omega
    · have := hbd.2
      omega
  · intro hparse hout
    refine ⟨by simp [setVal, hparse], ?_⟩
    have : n % 2 ^ w < 2 ^ w := Nat.mod_lt _ (by rcases hw with rfl | rfl | rfl <;> decide)
    omega

/-- Witness for C10: `"300"` into an `int8` field parses as 300,
is out of range, and stores `44`; into a `uint8` field it stores `44`
as well. -/
theorem narrow_int_truncates_witness :
    (setVal (.tInt 8) "300" "" ";" = .ok (.vInt 8 44) ∧
      (44 : Int) % (2 ^ 8) = (300 : Int) % (2 ^ 8) ∧
      -(2 ^ 7 : Int) ≤ 44 ∧ (44 : Int) < 2 ^ 7 ∧ (44 : Int) ≠ 300) ∧
    (setVal (.tUint 8) "300" "" ";" = .ok (.vUint 8 44) ∧ (300 : Nat) % 2 ^ 8 ≠ 300) := by
  have h := narrow_int_truncates 8 (Or.inl rfl) "300" 300 300 "" ";"
  have h1 := h.1 (by decide) (by decide)
  have h2 := h.2 (by decide) (by decide)
  constructor
  · simpa using h1
  · simpa using h2

/-! ### Claim C4: tag-modifier leniency (corrected) -/

/-- C4 counterexample: the claim says a `required` token given with a
value (wrong arity), e.g. `required=false`, is silently ignored and
required stays false; `parseTag` never checks the arity of `required`,
so `KEY,required=false` parses with required = true. -/
theorem required_with_value_cex :
    (parseTag ";" "KEY,required=false").Required = true ∧
    parseTag ";" "KEY,required=false" =
      { Key := "KEY", Default := "", Required := true, Separator := ";" } := by
  constructor <;> decide

/-- C4 amended: a modifier token whose lower-cased name is not
`required`/`default`/`separator`, and a `default` or `separator` token
without `=value`, contribute nothing to the descriptor and produce no
error; a `required` token, however, sets required = true regardless of
arity (even `required=false`). -/
theorem tag_modifier_leniency_amended (tf : TagField) (tok : String) :
    (goToLower ((goSplitN2 tok "=").headD "") ∉
        (["required", "default", "separator"] : List String) →
      applyToken tf tok = tf) ∧
    (goToLower ((goSplitN2 tok "=").headD "") = "default" →
      (goSplitN2 tok "=").length ≠ 2 → applyToken tf tok = tf) ∧
    (goToLower ((goSplitN2 tok "=").headD "") = "separator" →
      (goSplitN2 tok "=").length ≠ 2 → applyToken tf tok = tf) ∧
    (goToLower ((goSplitN2 tok "=").headD "") = "required" →
      applyToken tf tok = { tf with Required := true }) := by
  refine ⟨fun h => ?_, fun h hl => ?_, fun h hl => ?_, fun h => ?_⟩
  · have h1 : ¬goToLower ((goSplitN2 tok "=").headD "") = "required" := by
      intro hc; exact h (by rw [hc]; exact List.mem_cons_self _ _)
    have h2 : ¬goToLower ((goSplitN2 tok "=").headD "") = "default" := by
      intro hc
      refine h (by rw [hc]; exact List.mem_cons_of_mem _ (List.mem_cons_self _ _))
    have h3 : ¬goToLower ((goSplitN2 tok "=").headD "") = "separator" := by
      intro hc
      refine h (by
        rw [hc]
        exact List.mem_cons_of_mem _ (List.mem_cons_of_mem _ (List.mem_cons_self _ _)))
    unfold applyToken
    rw [if_neg h1, if_neg h2, if_neg h3]
  · have h1 : ¬goToLower ((goSplitN2 tok "=").headD "") = "required" := by
      rw [h]; decide
    unfold applyToken
    rw [if_neg h1, if_pos h, if_neg hl]
  · have h1 : ¬goToLower ((goSplitN2 tok "=").headD "") = "required" := by
      rw [h]; decide
    have h2 : ¬goToLower ((goSplitN2 tok "=").headD "") = "default" := by
      rw [h]; decide
    unfold applyToken
    rw [if_neg h1, if_neg h2, if_pos h, if_neg hl]
  · unfold applyToken
    rw [if_pos h]

/-- Witness for C4's amended claim on concrete tokens: an unrecognized
name, a bare `default`, a bare `separator`, and `required=false`. -/
theorem tag_modifier_leniency_amended_witness :
    applyToken ⟨"K", "", false, ";"⟩ "bogus=1" = ⟨"K", "", false, ";"⟩ ∧
    applyToken ⟨"K", "", false, ";"⟩ "default" = ⟨"K", "", false, ";"⟩ ∧
    applyToken ⟨"K", "", false, ";"⟩ "separator" = ⟨"K", "", false, ";"⟩ ∧
    applyToken ⟨"K", "", false, ";"⟩ "required=false" = ⟨"K", "", true, ";"⟩ :=
  ⟨(tag_modifier_leniency_amended ⟨"K", "", false, ";"⟩ "bogus=1").1 (by decide),
   (tag_modifier_leniency_amended ⟨"K", "", false, ";"⟩ "default").2.1 (by decide) (by decide),
   (tag_modifier_leniency_amended ⟨"K", "", false, ";"⟩ "separator").2.2.1 (by decide)
     (by decide),
   (tag_modifier_leniency_amended ⟨"K", "", false, ";"⟩ "required=false").2.2.2 (by decide)⟩

/-! ### Claim C5: separator resolution time (corrected) -/

/-- C5 counterexample: for a tag with *no* separator modifier, the
descriptor captures the process-wide default at parse time (`";"`
here), so with the process-wide default changed to `"|"` by coercion
time, the value `"a|b"` is still split on the parse-time `";"`, giving
`["a|b"]` — not on the consumption-time `"|"` (which would give
`["a", "b"]`) as the claim requires. -/
theorem separator_resolution_cex :
    (parseTag ";" "K").Separator = ";" ∧
    setVal (.tSlice .tStr) "a|b" (parseTag ";" "K").Separator "|" =
      .ok (.vSliceOf [.vStr "a|b"]) ∧
    setVal (.tSlice .tStr) "a|b" (parseTag ";" "K").Separator "|" ≠
      .ok (.vSliceOf [.vStr "a", .vStr "b"]) := by
  refine ⟨rfl, rfl, fun h => ?_⟩
  rw [show setVal (.tSlice .tStr) "a|b" (parseTag ";" "K").Separator "|" =
        .ok (.vSliceOf [.vStr "a|b"]) from rfl] at h
  simp only [Except.ok.injEq, Value.vSliceOf.injEq, List.cons.injEq, Value.vStr.injEq] at h
  exact absurd h.1 (by decide)

theorem applyToken_eq (tf : TagField) (tok : String) :
    applyToken tf tok =
      if modName tok = "required" then { tf with Required := true }
      else if modName tok = "default" then
        if (goSplitN2 tok "=").length = 2 then
          { tf with Default := unescapeCommas (modArg tok) }
        else tf
      else if modName tok = "separator" then
        if (goSplitN2 tok "=").length = 2 then
          { tf with Separator := unescapeCommas (modArg tok) }
        else tf
      else tf := rfl

theorem applyToken_sep_mem (tf : TagField) (tok : String) (g1 : String)
    (hnc : setsNonEmptySep tok = false)
    (h : tf.Separator = g1 ∨ tf.Separator = "") :
    (applyToken tf tok).Separator = g1 ∨ (applyToken tf tok).Separator = "" := by
  rw [applyToken_eq]
  by_cases h1 : modName tok = "required"
  · rw [if_pos h1]; exact h
  · rw [if_neg h1]
    by_cases h2 : modName tok = "default"
    · rw [if_pos h2]
      by_cases hl : (goSplitN2 tok "=").length = 2
      · rw [if_pos hl]; exact h
      · rw [if_neg hl]; exact h
    · rw [if_neg h2]
      by_cases h3 : modName tok = "separator"
      · rw [if_pos h3]
        by_cases hl : (goSplitN2 tok "=").length = 2
        · rw [if_pos hl]
          have hv : unescapeCommas (modArg tok) = "" := by
            simp only [setsNonEmptySep, h3, hl] at hnc
            simpa using hnc
          exact Or.inr hv
        · rw [if_neg hl]; exact h
      · rw [if_neg h3]; exact h

theorem foldl_applyToken_sep (mods : List String) (g1 : String) (tf : TagField)
    (hmods : ∀ tok ∈ mods, setsNonEmptySep tok = false)
    (h : tf.Separator = g1 ∨ tf.Separator = "") :
    (mods.foldl applyToken tf).Separator = g1 ∨
      (mods.foldl applyToken tf).Separator = "" := by
  induction mods generalizing tf with
  | nil => exact h
  | cons tok rest ih =>
    exact ih _ (fun t ht => hmods t (List.mem_cons_of_mem tok ht))
      (applyToken_sep_mem tf tok g1 (hmods tok (List.mem_cons_self tok rest)) h)

/-- C5 amended: a field whose tag never sets a *nonempty* separator
(no separator modifier at all, or only `separator=` with an empty
value) ends up with descriptor separator equal to the parse-time
process-wide default `g1` or empty.  When it is empty (the
`separator=` case), coercion falls back to the process-wide default at
coercion time (`g2`); when it is `g1 ≠ ""` (the no-modifier case), the
parse-time capture is used and a later change of the global to `g2`
has no effect — resolution happens at parse time, not at consumption
time, for such fields. -/
theorem separator_resolution_amended (g1 g2 tag value : String)
    (hmods : ∀ tok ∈ tagMods tag, setsNonEmptySep tok = false) :
    ((parseTag g1 tag).Separator = g1 ∨ (parseTag g1 tag).Separator = "") ∧
    ((parseTag g1 tag).Separator = "" →
      setVal (.tSlice .tStr) value (parseTag g1 tag).Separator g2 =
        .ok (.vSliceOf ((goSplit value g2).map Value.vStr))) ∧
    (g1 ≠ "" → (parseTag g1 tag).Separator = g1 →
      setVal (.tSlice .tStr) value (parseTag g1 tag).Separator g2 =
        .ok (.vSliceOf ((goSplit value g1).map Value.vStr))) := by
  refine ⟨?_, fun h => ?_, fun hg h => ?_⟩
  · unfold parseTag
    rcases hsp : goSplit (goReplaceAll tag "\\," sentinel) "," with _ | ⟨k, mods⟩
    · exact Or.inl rfl
    · have hmods' : ∀ tok ∈ mods, setsNonEmptySep tok = false := by
        intro t ht
        apply hmods
        simp [tagMods, hsp, ht]
      exact foldl_applyToken_sep mods g1 _ hmods' (Or.inl rfl)
  · rw [h]
    simp [setVal, resolveSep]
  · rw [h]
    simp [setVal, resolveSep, hg]

/-- Witness for C5's amended claim: with parse-time global `";"` and
coercion-time global `"|"`, the bare tag `K` splits on `";"`, while
`K,separator=` falls back to the coercion-time `"|"`. -/
theorem separator_resolution_amended_witness :
    ((parseTag ";" "K").Separator = ";" ∨ (parseTag ";" "K").Separator = "") ∧
    setVal (.tSlice .tStr) "a;b" (parseTag ";" "K").Separator "|" =
      .ok (.vSliceOf ((goSplit "a;b" ";").map Value.vStr)) ∧
    setVal (.tSlice .tStr) "x|y" (parseTag ";" "K,separator=").Separator "|" =
      .ok (.vSliceOf ((goSplit "x|y" "|").map Value.vStr)) :=
  ⟨(separator_resolution_amended ";" "|" "K" "a;b" (by decide)).1,
   (separator_resolution_amended ";" "|" "K" "a;b" (by decide)).2.2 (by decide) (by decide),
   (separator_resolution_amended ";" "|" "K,separator=" "x|y" (by decide)).2.1 (by decide)⟩

/-! ### Claim C6: mapping coercion -/

theorem lookupA_foldl_insert {α : Type} (keyf : String → String) (valf : String → α)
    (ps : List String) (acc : AList α) (k : String) :
    lookupA (ps.foldl (fun es p => insertA es (keyf p) (valf p)) acc) k =
      ((ps.reverse.find? (fun p => keyf p == k)).map valf).or (lookupA acc k) := by
  induction ps generalizing acc with
  | nil => simp
  | cons l rest ih =>
    simp only [List.foldl_cons, ih, List.reverse_cons, List.find?_append]
    rcases hfind : (List.find? (fun p => keyf p == k) rest.reverse) with _ | w
    · simp only [Option.map_none', Option.none_or]
      by_cases hc : keyf l = k
      · simp [List.find?, hc, lookupA_insertA]
      · have hcb : (keyf l == k) = false := by simpa using hc
        simp [List.find?, hcb, lookupA_insertA, hc]
    · simp [Option.or]

theorem lookupA_entriesOfPairs (te : Ty) (ssep g : String) (pairs : List String)
    (k : String) :
    lookupA (entriesOfPairs te ssep g pairs) k =
      (pairs.reverse.find? (fun p => pairKey p == k)).map (entryValOf te ssep g) := by
  have h := lookupA_foldl_insert pairKey (entryValOf te ssep g) pairs [] k
  simpa [entriesOfPairs, lookupA, Option.or_none] using h

theorem mapEntriesA_all_ok (f : String → Except Err Value) (ps : List String)
    (acc : AList Value)
    (h : ∀ p ∈ ps, pairWF p = true ∧ (f (pairRest p)).isOk = true) :
    mapEntriesA f ps acc =
      .ok (ps.foldl (fun es p => insertA es (pairKey p) (okValD (f (pairRest p)))) acc) := by
  induction ps generalizing acc with
  | nil => simp [mapEntriesA]
  | cons p rest ih =>
    obtain ⟨hwf, hok⟩ := h p (List.mem_cons_self _ _)
    rcases hf : f (pairRest p) with e | v
    · rw [hf] at hok
      simp [Except.isOk, Except.toBool] at hok
    · simp only [mapEntriesA, hwf, if_true, hf, List.foldl_cons]
      rw [ih _ (fun q hq => h q (List.mem_cons_of_mem _ hq))]
      simp [okValD, hf]

theorem mapEntriesA_first_bad (f : String → Except Err Value) (pre : List String)
    (p : String) (post : List String) (acc : AList Value)
    (hpre : ∀ q ∈ pre, pairWF q = true ∧ (f (pairRest q)).isOk = true)
    (hp : pairWF p = false) :
    mapEntriesA f (pre ++ p :: post) acc = .error (.invalidMapEntry p) := by
  induction pre generalizing acc with
  | nil => simp [mapEntriesA, hp]
  | cons q rest ih =>
    obtain ⟨hwf, hok⟩ := hpre q (List.mem_cons_self _ _)
    rcases hf : f (pairRest q) with e | v
    · rw [hf] at hok
      simp [Except.isOk, Except.toBool] at hok
    · simp only [List.cons_append, mapEntriesA, hwf, if_true, hf]
      exact ih _ (fun r hr => hpre r (List.mem_cons_of_mem _ hr))

/-- C6: for a string-keyed mapping field of any value type: (1) an
empty effective value yields an initialized-empty (non-nil) mapping;
(2) a nonempty value whose pair tokens (split on the resolved
separator) all contain `:` and all coerce yields the mapping built in
token order by overwriting insertion; (3) lookup in that mapping is
the *last* occurrence of the key in token order (duplicate keys: last
write wins), with the part after the first `:` coerced as the value;
(4) if a pair token lacking `:` is reached (all earlier tokens
well-formed and coercing), the whole field's coercion fails with an
error naming that pair, so no mapping is assigned. -/
theorem map_coercion_spec (te : Ty) (value sep g : String) :
    (setVal (.tMapTy te) "" sep g = .ok (.vMapOf [])) ∧
    (value ≠ "" →
      (∀ p ∈ goSplit value (resolveSep sep g), pairWF p = true ∧
          (setVal te (pairRest p) (resolveSep sep g) g).isOk = true) →
      setVal (.tMapTy te) value sep g =
        .ok (.vMapOf
          (entriesOfPairs te (resolveSep sep g) g (goSplit value (resolveSep sep g))))) ∧
    (∀ k, lookupA (entriesOfPairs te (resolveSep sep g) g
            (goSplit value (resolveSep sep g))) k =
        ((goSplit value (resolveSep sep g)).reverse.find?
            (fun p => pairKey p == k)).map (entryValOf te (resolveSep sep g) g)) ∧
    (∀ pre p post, goSplit value (resolveSep sep g) = pre ++ p :: post →
      (∀ q ∈ pre, pairWF q = true ∧
          (setVal te (pairRest q) (resolveSep sep g) g).isOk = true) →
      pairWF p = false → value ≠ "" →
      setVal (.tMapTy te) value sep g = .error (.invalidMapEntry p)) := by
  have hunf : setVal (.tMapTy te) value sep g =
      (if value = "" then .ok (.vMapOf [])
      else
        match mapEntriesA (fun v => setVal te v (resolveSep sep g) g)
            (goSplit value (resolveSep sep g)) [] with
        | .error e => .error e
        | .ok es => .ok (.vMapOf es)) := by
    cases te <;> rfl
  refine ⟨?_, fun hv h => ?_, fun k => lookupA_entriesOfPairs _ _ _ _ _, ?_⟩
  · cases te <;> rfl
  · have hrw := mapEntriesA_all_ok (fun v => setVal te v (resolveSep sep g) g)
      (goSplit value (resolveSep sep g)) [] h
    rw [hunf, if_neg hv, hrw]
    rfl
  · intro pre p post hsplit hpre hp hv
    have hrw := mapEntriesA_first_bad (fun v => setVal te v (resolveSep sep g) g)
      pre p post [] hpre hp
    rw [← hsplit] at hrw
    rw [hunf, if_neg hv, hrw]


/-- Witness for C6: string-valued mapping, default separator `";"`;
the empty value gives an initialized-empty mapping, a value with a
duplicate key builds the token-order overwriting mapping, and a pair
token without `:` fails naming that pair. -/
theorem map_coercion_spec_witness :
    setVal (.tMapTy .tStr) "" "" ";" = .ok (.vMapOf []) ∧
    setVal (.tMapTy .tStr) "env:prod;region:us;env:dev" "" ";" =
      .ok (.vMapOf (entriesOfPairs .tStr ";" ";"
        (goSplit "env:prod;region:us;env:dev" ";"))) ∧
    lookupA (entriesOfPairs .tStr ";" ";" (goSplit "env:prod;region:us;env:dev" ";"))
        "env" =
      ((goSplit "env:prod;region:us;env:dev" ";").reverse.find?
          (fun p => pairKey p == "env")).map (entryValOf .tStr ";" ";") ∧
    setVal (.tMapTy .tStr) "a:1;nope" "" ";" = .error (.invalidMapEntry "nope") :=
  ⟨(map_coercion_spec .tStr "" "" ";").1,
   (map_coercion_spec .tStr "env:prod;region:us;env:dev" "" ";").2.1 (by decide) (by decide),
   (map_coercion_spec .tStr "env:prod;region:us;env:dev" "" ";").2.2.1 "env",
   (map_coercion_spec .tStr "a:1;nope" "" ";").2.2.2 ["a:1"] "nope" [] (by decide)
     (by decide) (by decide) (by decide)⟩

/-! ### Per-field lemmas for the walk -/

theorem processField_nonstruct (g : String) (envs : EnvMap) (name tag : String)
    (ex : Bool) (ty : Ty) (v : Value) (hty : ty.isStruct = false) :
    processField g envs (.mk name tag ex ty) v = tagPart g envs name tag ex ty v := by
  cases ty
  case tStructTy => simp [Ty.isStruct] at hty
  all_goals cases v <;> rfl

theorem processField_embedded (g : String) (envs : EnvMap) (name : String)
    (gs : List FieldD) (ws : List Value) :
    processField g envs (.mk name "" true (.tStructTy gs)) (.vStruct ws) =
      ((unmarshalFields g gs envs ws).1,
        .vStruct (unmarshalFields g gs envs ws).2.1,
        (unmarshalFields g gs envs ws).2.2) := by
  simp only [processField]
  by_cases h : (unmarshalFields g gs envs ws).2.2 = []
  · simp [h, tagPart]
  · simp [h]

theorem unmarshalFields_cons (g : String) (f : FieldD) (fs : List FieldD)
    (envs : EnvMap) (v : Value) (vtail : List Value) :
    unmarshalFields g (f :: fs) envs (v :: vtail) =
      ((unmarshalFields g fs (processField g envs f v).1 vtail).1,
        (processField g envs f v).2.1 ::
          (unmarshalFields g fs (processField g envs f v).1 vtail).2.1,
        (processField g envs f v).2.2 ++
          (unmarshalFields g fs (processField g envs f v).1 vtail).2.2) := rfl

theorem unmarshalFields_append (g : String) (fs1 fs2 : List FieldD)
    (vs1 vs2 : List Value) (envs : EnvMap) (hlen : fs1.length = vs1.length) :
    unmarshalFields g (fs1 ++ fs2) envs (vs1 ++ vs2) =
      ((unmarshalFields g fs2 (unmarshalFields g fs1 envs vs1).1 vs2).1,
        (unmarshalFields g fs1 envs vs1).2.1 ++
          (unmarshalFields g fs2 (unmarshalFields g fs1 envs vs1).1 vs2).2.1,
        (unmarshalFields g fs1 envs vs1).2.2 ++
          (unmarshalFields g fs2 (unmarshalFields g fs1 envs vs1).1 vs2).2.2) := by
  induction fs1 generalizing vs1 envs with
  | nil =>
    cases vs1 with
    | nil => simp [unmarshalFields]
    | cons _ _ => simp at hlen
  | cons f fs ih =>
    cases vs1 with
    | nil => simp at hlen
    | cons v vtail =>
      simp only [List.length_cons] at hlen
      simp only [List.cons_append, unmarshalFields_cons]
      rw [ih _ _ (by omega)]
      simp [List.append_assoc]

/-! ### Claim C2: frame effect on the source mapping -/

/-- C2: for an annotated (non-struct, exported) field: when the
effective value comes from an explicit mapping entry and coercion
succeeds, that key is deleted from the mapping (and the field gets the
coerced value with no error); when the key is absent (so the field can
only resolve through its tag default), the mapping is left unchanged
by this field — defaults never trigger removal. -/
theorem explicit_consumed_default_leaves (g : String) (envs : EnvMap)
    (name tag : String) (ty : Ty) (v : Value) (hty : ty.isStruct = false)
    (htag : tag ≠ "") :
    (∀ value v', lookupA envs (parseTag g tag).Key = some value →
      setVal ty value (parseTag g tag).Separator g = .ok v' →
      processField g envs (.mk name tag true ty) v =
        (eraseA envs (parseTag g tag).Key, v', [])) ∧
    (lookupA envs (parseTag g tag).Key = none →
      (processField g envs (.mk name tag true ty) v).1 = envs) := by
  rw [processField_nonstruct g envs name tag true ty v hty]
  constructor
  · intro value v' hlook hset
    simp [tagPart, htag, hlook, hset]
  · intro hlook
    simp only [tagPart, hlook, if_neg htag, eq_self_iff_true, if_true]
    by_cases h2 : ((parseTag g tag).Required && ((parseTag g tag).Default == "")) = true
    · rw [if_pos h2]
    · rw [if_neg h2]
      by_cases h3 : (parseTag g tag).Default ≠ ""
      · rw [if_pos h3]
        rcases hs : setVal ty (parseTag g tag).Default (parseTag g tag).Separator g
            with e | v'
        · simp
        · simpa using eraseA_of_not_mem envs _ hlook
      · rw [if_neg h3]

/-- Witness for C2: an explicit entry is consumed (key removed); with
the key absent and only a default, the mapping is untouched. -/
theorem explicit_consumed_default_leaves_witness :
    processField ";" [("HOST", "h"), ("OTHER", "x")] (.mk "Host" "HOST" true .tStr)
        (.vStr "") =
      (eraseA [("HOST", "h"), ("OTHER", "x")] "HOST", .vStr "h", []) ∧
    (processField ";" [("OTHER", "x")] (.mk "Host" "HOST,default=dflt" true .tStr)
        (.vStr "")).1 =
      [("OTHER", "x")] :=
  ⟨(explicit_consumed_default_leaves ";" [("HOST", "h"), ("OTHER", "x")] "Host" "HOST"
      .tStr (.vStr "") rfl (by decide)).1 "h" (.vStr "h") rfl rfl,
   (explicit_consumed_default_leaves ";" [("OTHER", "x")] "Host" "HOST,default=dflt"
      .tStr (.vStr "") rfl (by decide)).2 rfl⟩

/-! ### Claim C9: coercion failure leaves field and key -/

theorem mapValues_length (f : String → Except Err Value) (ps : List String)
    (vs : List Value) (h : mapValues f ps = .ok vs) : vs.length = ps.length := by
  induction ps generalizing vs with
  | nil =>
    simp [mapValues] at h
    simp [← h]
  | cons p rest ih =>
    simp only [mapValues] at h
    rcases hf : f p with e | w <;> rw [hf] at h
    · cases h
    · rcases hrest : mapValues f rest with e | ws <;> rw [hrest] at h
      · cases h
      · cases h
        simp [ih ws hrest]

/-- C9: (1) for an annotated (non-struct, exported) field whose
explicit value fails coercion, the walk records exactly that error,
leaves the field's value unchanged (so at its zero value for a
zero-initialized record), and does not remove the key from the
mapping; (2) a successful slice coercion assigns a slice with one
element per split part (never a partial slice — failure assigns
nothing at all); (3) a successful map coercion assigns a (possibly
empty) built map, never a partial or nil one. -/
theorem coercion_failure_leaves_field (g : String) (envs : EnvMap)
    (name tag : String) (ty : Ty) (v : Value) (hty : ty.isStruct = false)
    (htag : tag ≠ "") :
    (∀ value e, lookupA envs (parseTag g tag).Key = some value →
      setVal ty value (parseTag g tag).Separator g = .error e →
      processField g envs (.mk name tag true ty) v = (envs, v, [e])) ∧
    (∀ te value sep w, setVal (.tSlice te) value sep g = .ok w →
      ∃ vs, w = .vSliceOf vs ∧ vs.length = (goSplit value (resolveSep sep g)).length) ∧
    (∀ te value sep w, setVal (.tMapTy te) value sep g = .ok w → ∃ es, w = .vMapOf es) := by
  refine ⟨fun value e hlook hset => ?_, fun te value sep w h => ?_, fun te value sep w h => ?_⟩
  · rw [processField_nonstruct g envs name tag true ty v hty]
    simp [tagPart, htag, hlook, hset]
  · have hsb : ∀ (r : Except Err (List Value)) (w : Value), sliceBuild r = .ok w →
        ∃ vs, r = .ok vs ∧ w = .vSliceOf vs := by
      intro r w hr
      rcases r with e | vs
      · simp [sliceBuild] at hr
      · refine ⟨vs, rfl, ?_⟩
        simpa [sliceBuild] using hr.symm
    have hunf : setVal (.tSlice te) value sep g =
        (match te with
        | .tStr => .ok (.vSliceOf ((goSplit value (resolveSep sep g)).map Value.vStr))
        | _ =>
          sliceBuild (mapValues (fun v => setVal te v (resolveSep sep g) g)
              (goSplit value (resolveSep sep g)))) := by
      cases te <;> rfl
    rw [hunf] at h
    cases te
    case tStr =>
      injection h with h2
      exact ⟨_, h2.symm, by simp⟩
    all_goals
      obtain ⟨vs', hmv, hw⟩ := hsb _ _ h
      exact ⟨vs', hw, mapValues_length _ _ _ hmv⟩
  · have hunf : setVal (.tMapTy te) value sep g =
        (if value = "" then .ok (.vMapOf [])
        else
          match mapEntriesA (fun v => setVal te v (resolveSep sep g) g)
              (goSplit value (resolveSep sep g)) [] with
          | .error e => .error e
          | .ok es => .ok (.vMapOf es)) := by
      cases te <;> rfl
    rw [hunf] at h
    by_cases hv : value = ""
    · rw [if_pos hv] at h
      cases h
      exact ⟨[], rfl⟩
    · rw [if_neg hv] at h
      rcases hme : mapEntriesA (fun v => setVal te v (resolveSep sep g) g)
          (goSplit value (resolveSep sep g)) [] with e | es <;> rw [hme] at h
      · cases h
      · cases h
        exact ⟨es, rfl⟩

/-- Witness for C9: a non-numeric value for an int field records the
parse error, leaves the field and the mapping untouched; a successful
int-slice coercion has one element per part; a successful map coercion
yields a built map. -/
theorem coercion_failure_leaves_field_witness :
    processField ";" [("PORT", "x9")] (.mk "Port" "PORT" true (.tInt 64)) (.vInt 64 0) =
      ([("PORT", "x9")], .vInt 64 0, [.parseFailure "x9"]) ∧
    (∃ vs, Value.vSliceOf [Value.vInt 64 80, Value.vInt 64 443] = .vSliceOf vs ∧
      vs.length = (goSplit "80|443" (resolveSep "|" ";")).length) ∧
    (∃ es, Value.vMapOf [("a", Value.vStr "b")] = .vMapOf es) :=
  ⟨(coercion_failure_leaves_field ";" [("PORT", "x9")] "Port" "PORT" (.tInt 64)
      (.vInt 64 0) rfl (by decide)).1 "x9" (.parseFailure "x9") rfl rfl,
   (coercion_failure_leaves_field ";" [] "Port" "PORT" (.tInt 64) (.vInt 64 0) rfl
      (by decide)).2.1 (.tInt 64) "80|443" "|"
      (.vSliceOf [.vInt 64 80, .vInt 64 443]) rfl,
   (coercion_failure_leaves_field ";" [] "Port" "PORT" (.tInt 64) (.vInt 64 0) rfl
      (by decide)).2.2 .tStr "a:b" ""
      (.vMapOf [("a", Value.vStr "b")]) rfl⟩

/-! ### Claim C3: the validation hook -/

/-- C3: if the field walk produced an empty aggregate error and a
validator is registered at that moment, `Unmarshal` invokes it exactly
once on the populated record and its result (nil or an error) becomes
the overall result, superseding field-level success; if the walk
produced any error, the validator is never invoked and the aggregate
is returned. -/
theorem validator_called_once (validator : Option (List Value → Option Err))
    (g : String) (envs : EnvMap) (fs : List FieldD) (vs : List Value) :
    ((unmarshalFields g fs envs vs).2.2 = [] →
      (validator = none →
        Unmarshal validator g envs fs vs =
          ((unmarshalFields g fs envs vs).1, (unmarshalFields g fs envs vs).2.1, [], 0)) ∧
      (∀ f, validator = some f →
        Unmarshal validator g envs fs vs =
          ((unmarshalFields g fs envs vs).1, (unmarshalFields g fs envs vs).2.1,
            (match f (unmarshalFields g fs envs vs).2.1 with
              | none => []
              | some e => [e]), 1))) ∧
    ((unmarshalFields g fs envs vs).2.2 ≠ [] →
      Unmarshal validator g envs fs vs =
        ((unmarshalFields g fs envs vs).1, (unmarshalFields g fs envs vs).2.1,
          (unmarshalFields g fs envs vs).2.2, 0)) := by
  constructor
  · intro hok
    constructor
    · intro hval
      subst hval
      simp [Unmarshal, hok]
    · intro f hval
      subst hval
      simp only [Unmarshal, hok]
      rcases hf : f (unmarshalFields g fs envs vs).2.1 with _ | e <;> simp [hf]
  · intro hne
    rcases herr : (unmarshalFields g fs envs vs).2.2 with _ | ⟨e, es⟩
    · exact absurd herr hne
    · simp [Unmarshal, herr]

/-- Witness for C3: a clean one-field decode with a failing validator
returns exactly the validator's error with one invocation; the same
record with its required key missing returns the walk's error with the
validator (still registered) never invoked. -/
theorem validator_called_once_witness :
    Unmarshal (some (fun _ => some (.validationFailed "bad"))) ";" [("NAME", "t")]
        [.mk "Name" "NAME" true .tStr] [.vStr ""] =
      ([], [.vStr "t"],
        (match (fun (_ : List Value) => some (Err.validationFailed "bad")) [Value.vStr "t"] with
          | none => []
          | some e => [e]), 1) ∧
    Unmarshal (some (fun _ => some (.validationFailed "bad"))) ";" []
        [.mk "Name" "NAME,required" true .tStr] [.vStr ""] =
      ([], [.vStr ""], [.requiredNotFound "NAME"], 0) :=
  ⟨((validator_called_once (some (fun _ => some (.validationFailed "bad"))) ";"
      [("NAME", "t")] [.mk "Name" "NAME" true .tStr] [.vStr ""]).1 rfl).2
      (fun _ => some (.validationFailed "bad")) rfl,
   (validator_called_once (some (fun _ => some (.validationFailed "bad"))) ";" []
      [.mk "Name" "NAME,required" true .tStr] [.vStr ""]).2 (by decide)⟩

/-! ### Claim C1: required-missing errors aggregate without short-circuiting -/

/-- C1: (part 1) when the walk reaches an annotated, exported,
non-struct field whose descriptor is required with no default and whose
key is absent from the mapping state at that point, the field
contributes exactly a required-not-found error naming the key, its
value is left untouched, and the walk continues: the fields before it
and after it produce exactly what they produce on their own, with all
errors joined in order.  (part 2) When the field is an embedded
(untagged, exported) record, its inner walk runs on the same mapping
and its errors — e.g. an inner required-missing error — are joined
while the outer siblings before and after are still processed. -/
theorem required_missing_spec (g : String) (envs : EnvMap) (fs1 fs2 : List FieldD)
    (vs1 vs2 : List Value) (hlen : fs1.length = vs1.length) :
    (∀ name tag ty v, tag ≠ "" → Ty.isStruct ty = false →
      (parseTag g tag).Required = true → (parseTag g tag).Default = "" →
      lookupA (unmarshalFields g fs1 envs vs1).1 (parseTag g tag).Key = none →
      unmarshalFields g (fs1 ++ FieldD.mk name tag true ty :: fs2) envs
          (vs1 ++ v :: vs2) =
        ((unmarshalFields g fs2 (unmarshalFields g fs1 envs vs1).1 vs2).1,
          (unmarshalFields g fs1 envs vs1).2.1 ++
            v :: (unmarshalFields g fs2 (unmarshalFields g fs1 envs vs1).1 vs2).2.1,
          (unmarshalFields g fs1 envs vs1).2.2 ++
            Err.requiredNotFound (parseTag g tag).Key ::
              (unmarshalFields g fs2 (unmarshalFields g fs1 envs vs1).1 vs2).2.2)) ∧
    (∀ name gs ws,
      unmarshalFields g (fs1 ++ FieldD.mk name "" true (.tStructTy gs) :: fs2) envs
          (vs1 ++ Value.vStruct ws :: vs2) =
        ((unmarshalFields g fs2
            (unmarshalFields g gs (unmarshalFields g fs1 envs vs1).1 ws).1 vs2).1,
          (unmarshalFields g fs1 envs vs1).2.1 ++
            Value.vStruct (unmarshalFields g gs (unmarshalFields g fs1 envs vs1).1 ws).2.1 ::
              (unmarshalFields g fs2
                (unmarshalFields g gs (unmarshalFields g fs1 envs vs1).1 ws).1 vs2).2.1,
          (unmarshalFields g fs1 envs vs1).2.2 ++
            (unmarshalFields g gs (unmarshalFields g fs1 envs vs1).1 ws).2.2 ++
              (unmarshalFields g fs2
                (unmarshalFields g gs (unmarshalFields g fs1 envs vs1).1 ws).1 vs2).2.2)) := by
  constructor
  · intro name tag ty v htag hty hreq hdef hlook
    have hpf : processField g (unmarshalFields g fs1 envs vs1).1 (.mk name tag true ty) v =
        ((unmarshalFields g fs1 envs vs1).1, v,
          [.requiredNotFound (parseTag g tag).Key]) := by
      rw [processField_nonstruct _ _ _ _ _ _ _ hty]
      simp only [tagPart, if_neg htag, eq_self_iff_true, if_true, hlook]
      rw [if_pos (by simp [hreq, hdef])]
    rw [unmarshalFields_append g fs1 (FieldD.mk name tag true ty :: fs2) vs1 (v :: vs2)
      envs hlen]
    rw [unmarshalFields_cons, hpf]
    simp
  · intro name gs ws
    rw [unmarshalFields_append g fs1 (FieldD.mk name "" true (.tStructTy gs) :: fs2) vs1
      (Value.vStruct ws :: vs2) envs hlen]
    rw [unmarshalFields_cons, processField_embedded]
    simp

/-- Witness for C1: a middle required field with no value leaves itself
unset, errors by name, and spares both its predecessor (explicit value)
and its successor (default); an embedded record's inner required error
surfaces while the outer sibling still decodes. -/
theorem required_missing_spec_witness :
    unmarshalFields ";"
        [.mk "Name" "NAME" true .tStr, .mk "Host" "HOST,required" true .tStr,
          .mk "Port" "PORT,default=80" true (.tInt 64)]
        [("NAME", "app")] [.vStr "", .vStr "", .vInt 64 0] =
      ([], [.vStr "app", .vStr "", .vInt 64 80], [.requiredNotFound "HOST"]) ∧
    unmarshalFields ";"
        [.mk "DB" "" true (.tStructTy [.mk "Host" "DB_HOST,required" true .tStr]),
          .mk "Name" "NAME" true .tStr]
        [("NAME", "app")] [.vStruct [.vStr ""], .vStr ""] =
      ([], [.vStruct [.vStr ""], .vStr "app"], [.requiredNotFound "DB_HOST"]) :=
  ⟨(required_missing_spec ";" [("NAME", "app")] [.mk "Name" "NAME" true .tStr]
      [.mk "Port" "PORT,default=80" true (.tInt 64)] [.vStr ""] [.vInt 64 0] rfl).1
      "Host" "HOST,required" .tStr (.vStr "") (by decide) rfl rfl rfl rfl,
   (required_missing_spec ";" [("NAME", "app")] [] [.mk "Name" "NAME" true .tStr] []
      [.vStr ""] rfl).2 "DB" [.mk "Host" "DB_HOST,required" true .tStr] [.vStr ""]⟩

end EnvP
